import Mathlib

/-!
Verification development for the schedule bot in `Deployment.py`.

Strings are modelled as `List Char`; the Python string primitives used by the
program (`split`, `strip`, `join`, the substring operator `in`, `isdigit`,
`int`) are embedded as executable functions below, and each engine operation
(join / leave / delay callbacks, roster serialization, time-slot parsing, the
expiry and reset paths) is translated from the source.
-/

namespace Up

/-- Program strings are lists of characters. -/
abbrev Str := List Char

/-- Convert a Lean string literal to the `Str` representation. -/
def strL (s : String) : Str := s.toList

/-- Does the first list occur as a prefix of the second?  Building block of
the Python substring operator `in`. -/
def begWith : Str → Str → Bool
  | [], _ => true
  | _ :: _, [] => false
  | a :: as, b :: bs => a == b && begWith as bs

/-- Python's substring test `pat in s`: `pat` begins at some position of `s`. -/
def hasSubstr (pat : Str) : Str → Bool
  | [] => begWith pat []
  | c :: rest => begWith pat (c :: rest) || hasSubstr pat rest

/-- Python `s.split(sep)` for a single-character separator `sepc`
(used by the program as `p.split(":")` and `time_slot.split("-")`).
`splitChar sepc "" = [""]`, matching Python. -/
def splitChar (sepc : Char) : Str → List Str
  | [] => [[]]
  | c :: rest =>
    if c = sepc then [] :: splitChar sepc rest
    else
      match splitChar sepc rest with
      | [] => [[c]]
      | f :: fs => (c :: f) :: fs

/-- Numeric value of a digit string, as computed by Python `int` on it. -/
def natOfDigits (s : Str) : Nat :=
  s.foldl (fun a c => a * 10 + (c.toNat - 48)) 0

/-- Python `s.isdigit()`: nonempty and all digits. -/
def pyIsDigit (s : Str) : Bool := !s.isEmpty && s.all Char.isDigit

/-- Python `int(s)` restricted to the digit strings this program stores
(`None` models the `ValueError` exception on anything else). -/
def pyInt? (s : Str) : Option Nat :=
  if s.isEmpty then none
  else if s.all Char.isDigit then some (natOfDigits s) else none

/-- Python `s.strip()` on the space-separated inputs this program handles. -/
def pyStrip (s : Str) : Str :=
  ((s.dropWhile (fun c => c = ' ')).reverse.dropWhile (fun c => c = ' ')).reverse

/-- A `strptime` `%H`/`%M` field: one or two ASCII digits. -/
def strToNat2? (s : Str) : Option Nat :=
  if s.isEmpty then none
  else if s.length ≤ 2 && s.all Char.isDigit then some (natOfDigits s) else none

/-- Parse one `HH:MM` half of a time slot, as minutes since midnight.
In the source the half is parsed by appending `":00"` and running
`strptime("%Y-%m-%d %H:%M:%S")`; the net effect on the time-of-day is
captured here (two colon-separated 1–2 digit fields, hour < 24, minute < 60). -/
def parseHM (s : Str) : Option Nat :=
  match splitChar ':' s with
  | [hs, ms] =>
    match strToNat2? hs, strToNat2? ms with
    | some h, some m => if h < 24 && m < 60 then some (h * 60 + m) else none
    | _, _ => none
  | _ => none

/-- Normalization step of `parse_time_slot` (lines 57–63): both instants get
today's date; if `end < start` then `end` is advanced by one day.  Instants
are minutes since an epoch, a day being 1440 minutes. -/
def normSlot (today s e : Nat) : Nat × Nat :=
  (today * 1440 + s,
   if today * 1440 + e < today * 1440 + s then today * 1440 + e + 1440
   else today * 1440 + e)

/-- `parse_time_slot` (lines 52–65): split on `"-"` into exactly two halves,
strip each, parse each as `HH:MM`, then normalize.  `none` models the
`BadArgument` exception. -/
def parse_time_slot (time_slot : Str) (today : Nat) : Option (Nat × Nat) :=
  match splitChar '-' time_slot with
  | [a, b] =>
    match parseHM (pyStrip a), parseHM (pyStrip b) with
    | some s, some e => some (normSlot today s e)
    | _, _ => none
  | _ => none

/-- The roster separator `", "` used by `", ".join` and `split(", ")`. -/
def sepCS : Str := [',', ' ']

/-- Python `s.split(", ")`, the deserializer's scan for the two-character
separator (leftmost occurrence first, matching Python). -/
def splitCommaSpace : Str → List Str
  | [] => [[]]
  | [c] => [[c]]
  | c :: d :: rest =>
    if c = ',' ∧ d = ' ' then [] :: splitCommaSpace rest
    else
      match splitCommaSpace (d :: rest) with
      | [] => [[c]]
      | f :: fs => (c :: f) :: fs

/-- Python `", ".join(entries)`, the roster serializer. -/
def joinComma : List Str → Str
  | [] => []
  | [p] => p
  | p :: q :: ps => p ++ ',' :: ' ' :: joinComma (q :: ps)

/-- `get_participants_list` (lines 154–162) on the string the database
returns: empty string gives the empty roster, otherwise `split(", ")`. -/
def get_participants_list (participants : Str) : List Str :=
  if participants = [] then [] else splitCommaSpace participants

/-- The serialized entry appended by `JoinButton.callback` (line 242):
`f"{user_id}:{user_name}"`. -/
def mkEntry2 (u n : Str) : Str := u ++ ':' :: n

/-- The ASCII digit character for `t < 10`. -/
def digitChar (t : Nat) : Char := Char.ofNat (48 + t)

/-- A three-field serialized entry `f"{uid}:{name}:{tier}"` for a one-digit
tier, as rebuilt by `DelayButton.callback` (line 297). -/
def mkEntry3 (u n : Str) (t : Nat) : Str := u ++ ':' :: (n ++ ':' :: [digitChar t])

/-- `JoinButton.callback`'s roster transform (lines 241–242): append
`"uid:name"` unless `user_id` occurs as a Python substring of some existing
serialized entry. -/
def joinCallback (r : List Str) (uid uname : Str) : List Str :=
  if r.any (fun p => hasSubstr uid p) then r else r ++ [mkEntry2 uid uname]

/-- `LeaveButton.callback`'s roster transform (line 334): keep exactly the
entries that do not contain `user_id` as a Python substring. -/
def leaveCallback (r : List Str) (uid : Str) : List Str :=
  r.filter (fun p => !hasSubstr uid p)

/-- `parts[0]` of `p.split(":")`: the userId field of a serialized entry. -/
def firstField (p : Str) : Str := (splitChar ':' p).headD []

/-- The per-entry body of `DelayButton.callback`'s rebuild loop
(lines 291–299).  `none` models an uncaught Python exception
(`IndexError` on `parts[1]`, or `ValueError` from `int(parts[2])`). -/
def delayEntry (uid p : Str) : Option Str :=
  let parts := splitChar ':' p
  if parts.headD [] = uid then
    match parts.get? 1 with
    | none => none
    | some pname =>
      match (if 2 < parts.length then pyInt? (parts.getD 2 []) else some 0) with
      | none => none
      | some d => some (parts.headD [] ++ ':' :: (pname ++ ':' :: [digitChar ((d + 1) % 3)]))
  else some p

/-- Evaluate an option-producing transform on every element, failing if any
element fails (the loop stops at the first Python exception). -/
def mapOpt (f : Str → Option Str) : List Str → Option (List Str)
  | [] => some []
  | p :: ps =>
    match f p with
    | none => none
    | some q =>
      match mapOpt f ps with
      | none => none
      | some qs => some (q :: qs)

/-- Outcome of `DelayButton.callback` (lines 276–315). -/
inductive DelayResult
  | notJoined
  | updated (r' : List Str)
  | pyError
deriving DecidableEq

/-- `DelayButton.callback`: if `user_id` is not a substring of any entry, an
ephemeral error message is sent and nothing is written (`notJoined`);
otherwise every entry whose first field equals `user_id` gets its tier
advanced by `(tier+1) % 3` and the result is persisted (`updated`). -/
def delayCallback (r : List Str) (uid : Str) : DelayResult :=
  if r.any (fun p => hasSubstr uid p) then
    match mapOpt (delayEntry uid) r with
    | some r' => .updated r'
    | none => .pyError
  else .notJoined

/-- Split off the part of a string before its first colon; the remainder, if a
colon was found. -/
def breakColon : Str → Str × Option Str
  | [] => ([], none)
  | c :: rest =>
    if c = ':' then ([], some rest)
    else
      let fr := breakColon rest
      (c :: fr.1, fr.2)

/-- Python `p.split(":", 2)`: at most two splits, remainder kept whole
(`create_event_embed`, line 93). -/
def splitColonMax2 (p : Str) : List Str :=
  match breakColon p with
  | (f, none) => [f]
  | (f, some r1) =>
    match breakColon r1 with
    | (g, none) => [f, g]
    | (g, some r2) => [f, g, r2]

/-- The lateness suffix `f" (+{delay}⏰)"` (line 99). -/
def lateMark (d : Nat) : Str := ' ' :: '(' :: '+' :: (Nat.toDigits 10 d ++ ['⏰', ')'])

/-- The per-participant rendering of `create_event_embed` (lines 91–105):
`parts = p.split(":", 2)`; the display name is `parts[1]` (its absence raises
`IndexError`, caught by the surrounding `except`, so the entry is skipped —
modelled by `none`); a third all-digit field larger than zero appends the
lateness marker. -/
def renderParticipant (p : Str) : Option Str :=
  let parts := splitColonMax2 p
  match parts.get? 1 with
  | none => none
  | some pname =>
    if 3 ≤ parts.length then
      if pyIsDigit (parts.getD 2 []) then
        if 0 < natOfDigits (parts.getD 2 []) then some (pname ++ lateMark (natOfDigits (parts.getD 2 [])))
        else some pname
      else some pname
    else some pname

/-- The rendered roster: each participant in order, malformed ones skipped. -/
def renderRoster (participants : List Str) : List Str :=
  participants.filterMap renderParticipant

/-- One persisted `schedule` row as read by `on_ready` (line 501). -/
structure Row where
  id : Nat
  message_id : Nat
  server_name : Str
  time_slot : Str
  participants : Str

/-- Actions the startup and scheduling code can take. -/
inductive StartupAction
  | registerView (rowId : Nat)
  | startResetLoop
  | scheduleExpiry (rowId : Nat)

/-- Is the action the registration of an expiry timer? -/
def StartupAction.isExpiry : StartupAction → Bool
  | .scheduleExpiry _ => true
  | _ => false

/-- What `on_ready` (lines 496–516) does with the persisted rows: register
one interactive view per row (lines 505–509) and start the daily reset loop
(lines 513–516).  No call to `schedule_event_end` appears in it; expiry
timers are created only by `add_server` (line 426). -/
def on_ready_actions (records : List Row) : List StartupAction :=
  records.map (fun r => .registerView r.id) ++ [.startResetLoop]

/-- The sleep `schedule_event_end` performs before clearing the roster
(lines 126–131): `end - now`, truncated at zero — when the end has already
passed the clear runs immediately.  `none` models the parse failure path,
where the surrounding `except` swallows the fire. -/
def schedule_event_end_delay (time_slot : Str) (today now : Nat) : Option Nat :=
  (parse_time_slot time_slot today).map (fun q => q.2 - now)

/-- A `schedule` row as touched by the expiry fire path. -/
structure DBRow where
  id : Nat
  participants : Str
  message_id : Option Nat
deriving DecidableEq

/-- `UPDATE schedule SET participants=? WHERE id=?`: zero rows change when
the id is absent. -/
def updParticipants (s : List DBRow) (i : Nat) (v : Str) : List DBRow :=
  s.map (fun r => if r.id = i then { r with participants := v } else r)

/-- `UPDATE schedule SET message_id=? WHERE id=?`. -/
def updMessageId (s : List DBRow) (i : Nat) (m : Nat) : List DBRow :=
  s.map (fun r => if r.id = i then { r with message_id := some m } else r)

/-- Externally visible effects of one reconciliation or expiry fire: the
resulting store, ids of newly created external messages, ids of edited ones. -/
structure FireResult where
  store : List DBRow
  sent : List Nat
  edited : List Nat
deriving DecidableEq

/-- `update_schedule_message` (lines 164–216) as it affects the store and the
external channel.  `SELECT message_id WHERE id` yields `None` when the row is
absent or the column empty (line 167); with a message id and a findable
message the message is edited, with a missing message (`discord.NotFound`) or
no stored id a fresh message `newId` is sent and persisted (lines 194–212). -/
def update_schedule_message_m (s : List DBRow) (row_id : Nat) (fetchOk : Bool)
    (newId : Nat) : FireResult :=
  let mid : Option Nat :=
    match s.find? (fun r => r.id == row_id) with
    | some r => r.message_id
    | none => none
  match mid with
  | some m =>
    if fetchOk then ⟨s, [], [m]⟩
    else ⟨updMessageId s row_id newId, [newId], []⟩
  | none => ⟨updMessageId s row_id newId, [newId], []⟩

/-- The body of `schedule_event_end` after its sleep (lines 133–137): clear
the participants column, then — when `bot.get_channel` finds the channel —
run `update_schedule_message`.  There is no check that the row still exists. -/
def schedule_event_end_fire (s : List DBRow) (row_id : Nat) (channelOk fetchOk : Bool)
    (newId : Nat) : FireResult :=
  let s1 := updParticipants s row_id []
  if channelOk then update_schedule_message_m s1 row_id fetchOk newId
  else ⟨s1, [], []⟩

/-- What happens to one entry inside `update_schedule_message` during a bulk
refresh: everything succeeds; the stored message is gone but the replacement
send succeeds (`except discord.NotFound`, lines 205–212); the send is refused
(`except discord.Forbidden`, line 213); the replacement send itself raises;
or the stored `time_slot` fails to parse (line 169, before any handler). -/
inductive RecEvent
  | allOk
  | editTargetMissingResendOk
  | editTargetMissingResendFails
  | sendNotAllowed
  | slotMalformed
deriving DecidableEq

/-- Does `update_schedule_message` raise for this event?  The inner handlers
(lines 205–216) swallow `NotFound`-with-successful-resend and `Forbidden`;
an exception from the resend inside the `NotFound` handler, or from
`parse_time_slot`, reaches the outer handler which re-raises (line 220). -/
def reconcileRaises : RecEvent → Bool
  | .editTargetMissingResendFails => true
  | .slotMalformed => true
  | _ => false

/-- Which entries of the daily-reset loop (lines 565–578) get their
reconciliation attempted: the whole `for` sits inside one `try`, so the first
entry whose `update_schedule_message` raises aborts the remainder. -/
def reset_reconcile_flags : List RecEvent → List Bool
  | [] => []
  | e :: rest =>
    if reconcileRaises e then true :: rest.map (fun _ => false)
    else true :: reset_reconcile_flags rest

/-- `schedule_reset_task` (lines 559–581): per-entry attempted flags, and
whether the recurring task survives the fire (it always does — the outer
`except Exception` at line 580 only logs). -/
def schedule_reset_task_m (entries : List RecEvent) : List Bool × Bool :=
  (reset_reconcile_flags entries, true)

/-- One pending join interaction: the invoking user's id and display name. -/
structure JoinOp where
  uid : Str
  uname : Str

/-- The two database accesses of `JoinButton.callback` as separate atomic
steps: the `SELECT` at line 238 and the `UPDATE` at line 244.  Each is a
separate `await`, so the event loop may interleave other callbacks between
them. -/
inductive DBStep
  | readRoster (i : Nat)
  | writeRoster (i : Nat)

/-- Execute one step of pending join operation `i` against the shared
`participants` column.  A read captures the current column into slot `i`; a
write recomputes the roster from the captured value — exactly the
read-modify-write of lines 238–248 — and persists it. -/
def stepJoin (ops : List JoinOp) (st : Str × List (Option Str)) : DBStep → Str × List (Option Str)
  | .readRoster i => (st.1, st.2.set i (some st.1))
  | .writeRoster i =>
    match st.2.getD i none with
    | none => st
    | some captured =>
      match ops.get? i with
      | none => st
      | some op =>
        (joinComma (joinCallback (get_participants_list captured) op.uid op.uname), st.2)

/-- Final `participants` column after running an interleaving of the steps of
the pending join operations, starting from an empty roster. -/
def runSchedule (ops : List JoinOp) (sched : List DBStep) : Str :=
  (sched.foldl (stepJoin ops) ([], List.replicate ops.length none)).1

/-- A string without colons, as a Boolean side condition. -/
def colonFree (s : Str) : Bool := s.all (fun c => c != ':')

theorem colonFree_forall {s : Str} (h : colonFree s = true) : ∀ c ∈ s, c ≠ ':' := by
  intro c hc
  have hx := List.all_eq_true.mp h c hc
  simpa using hx

theorem begWith_append_self (l t : Str) : begWith l (l ++ t) = true := by
  induction l with
  | nil => rfl
  | cons a as ih => simp [begWith, ih]

theorem hasSubstr_of_begWith {pat s : Str} (h : begWith pat s = true) :
    hasSubstr pat s = true := by
  cases s with
  | nil => simpa [hasSubstr] using h
  | cons c rest => simp [hasSubstr, h]

theorem splitChar_ne_nil (sepc : Char) (s : Str) : splitChar sepc s ≠ [] := by
  induction s with
  | nil => simp [splitChar]
  | cons c rest ih =>
    simp only [splitChar]
    split
    · simp
    · split
      · simp
      · simp

theorem splitChar_sepFree {sepc : Char} {s : Str} (h : ∀ c ∈ s, c ≠ sepc) :
    splitChar sepc s = [s] := by
  induction s with
  | nil => rfl
  | cons c rest ih =>
    have hc : c ≠ sepc := h c (by simp)
    have hr : splitChar sepc rest = [rest] := ih (fun x hx => h x (by simp [hx]))
    simp [splitChar, hc, hr]

theorem splitChar_append {sepc : Char} {p : Str} (t : Str) (h : ∀ c ∈ p, c ≠ sepc) :
    splitChar sepc (p ++ sepc :: t) = p :: splitChar sepc t := by
  induction p with
  | nil => simp [splitChar]
  | cons c p' ih =>
    have hc : c ≠ sepc := h c (by simp)
    have hr := ih (fun x hx => h x (by simp [hx]))
    simp [splitChar, hc, hr]

theorem begWith_firstField (p : Str) : begWith (firstField p) p = true := by
  induction p with
  | nil => rfl
  | cons c rest ih =>
    by_cases hc : c = ':'
    · subst hc
      simp [firstField, splitChar, begWith]
    · match hm : splitChar ':' rest with
      | [] => exact absurd hm (splitChar_ne_nil ':' rest)
      | f :: fs =>
        have hff : firstField (c :: rest) = c :: f := by
          simp [firstField, splitChar, hc, hm]
        have hf : begWith f rest = true := by
          have hi := ih
          rw [firstField, hm] at hi
          simpa using hi
        rw [hff]
        simp [begWith, hf]

theorem hasSubstr_of_firstField {p u : Str} (h : firstField p = u) : hasSubstr u p = true := by
  subst h
  exact hasSubstr_of_begWith (begWith_firstField p)

theorem hasSubstr_mkEntry2_self (u n : Str) : hasSubstr u (mkEntry2 u n) = true :=
  hasSubstr_of_begWith (begWith_append_self u (':' :: n))

theorem splitCS_noSep : (s : Str) → hasSubstr sepCS s = false → splitCommaSpace s = [s]
  | [], _ => rfl
  | [c], _ => rfl
  | c :: d :: rest, h => by
    have hb : begWith sepCS (c :: d :: rest) = false := by
      cases ho : begWith sepCS (c :: d :: rest)
      · rfl
      · rw [hasSubstr, ho] at h
        simp at h
    have hcd : ¬ (c = ',' ∧ d = ' ') := by
      rintro ⟨h1, h2⟩
      subst h1
      subst h2
      simp [sepCS, begWith] at hb
    have hrest : hasSubstr sepCS (d :: rest) = false := by
      rw [hasSubstr, hb] at h
      simpa using h
    have hr := splitCS_noSep (d :: rest) hrest
    simp only [splitCommaSpace, if_neg hcd, hr]

theorem splitCS_append : (p t : Str) → hasSubstr sepCS p = false →
    splitCommaSpace (p ++ ',' :: ' ' :: t) = p :: splitCommaSpace t
  | [], t, _ => by simp [splitCommaSpace]
  | [c], t, _ => by
    have hcd : ¬ (c = ',' ∧ (',' : Char) = ' ') := by simp
    have hin : splitCommaSpace (',' :: ' ' :: t) = [] :: splitCommaSpace t := by
      simp [splitCommaSpace]
    simp only [List.cons_append, List.nil_append, splitCommaSpace, if_neg hcd, hin]
    simp
  | c :: d :: p'', t, h => by
    have hb : begWith sepCS (c :: d :: p'') = false := by
      cases ho : begWith sepCS (c :: d :: p'')
      · rfl
      · rw [hasSubstr, ho] at h
        simp at h
    have hcd : ¬ (c = ',' ∧ d = ' ') := by
      rintro ⟨h1, h2⟩
      subst h1
      subst h2
      simp [sepCS, begWith] at hb
    have hrest : hasSubstr sepCS (d :: p'') = false := by
      rw [hasSubstr, hb] at h
      simpa using h
    have hr := splitCS_append (d :: p'') t hrest
    simp only [List.cons_append] at hr
    simp only [List.cons_append, splitCommaSpace, if_neg hcd, List.append_eq]
    rw [hr]

theorem splitCS_joinComma : (r : List Str) → r ≠ [] →
    (∀ p ∈ r, hasSubstr sepCS p = false) → splitCommaSpace (joinComma r) = r
  | [], hne, _ => absurd rfl hne
  | [p], _, hall => by
    have h1 := splitCS_noSep p (hall p (by simp))
    simpa [joinComma] using h1
  | p :: q :: ps, _, hall => by
    have h1 := splitCS_append p (joinComma (q :: ps)) (hall p (by simp))
    have h2 := splitCS_joinComma (q :: ps) (by simp) (fun x hx => hall x (by simp [hx]))
    simp only [joinComma] at *
    rw [h1, h2]

theorem roundtrip_gpl (r : List Str) (hall : ∀ p ∈ r, hasSubstr sepCS p = false)
    (hne : r ≠ [[]]) : get_participants_list (joinComma r) = r := by
  match r with
  | [] => rfl
  | [p] =>
    have hp : p ≠ [] := fun h => hne (by rw [h])
    have hj : joinComma [p] = p := rfl
    rw [hj, get_participants_list, if_neg hp]
    exact splitCS_noSep p (hall p (by simp))
  | p :: q :: ps =>
    have hj : joinComma (p :: q :: ps) = p ++ ',' :: ' ' :: joinComma (q :: ps) := rfl
    have hne' : joinComma (p :: q :: ps) ≠ [] := by
      rw [hj]
      cases p <;> simp
    rw [get_participants_list, if_neg hne']
    exact splitCS_joinComma _ (by simp) hall

theorem mapOpt_some (f : Str → Option Str) :
    (l l' : List Str) → mapOpt f l = some l' → l' = l.map (fun p => (f p).getD p)
  | [], l', h => by
    simp only [mapOpt, Option.some.injEq] at h
    simp [← h]
  | p :: ps, l', h => by
    simp only [mapOpt] at h
    cases hf : f p with
    | none =>
      rw [hf] at h
      exact absurd h (by simp)
    | some q =>
      rw [hf] at h
      cases hm : mapOpt f ps with
      | none =>
        rw [hm] at h
        exact absurd h (by simp)
      | some qs =>
        rw [hm] at h
        simp only [Option.some.injEq] at h
        have hqs := mapOpt_some f ps qs hm
        rw [← h, List.map_cons, hf, ← hqs]
        rfl

theorem breakColon_sepFree {s : Str} (h : ∀ c ∈ s, c ≠ ':') : breakColon s = (s, none) := by
  induction s with
  | nil => rfl
  | cons c rest ih =>
    have hc : c ≠ ':' := h c (by simp)
    have hr : breakColon rest = (rest, none) := ih (fun x hx => h x (by simp [hx]))
    simp [breakColon, hc, hr]

theorem breakColon_append {u : Str} (t : Str) (h : ∀ c ∈ u, c ≠ ':') :
    breakColon (u ++ ':' :: t) = (u, some t) := by
  induction u with
  | nil => simp [breakColon]
  | cons c u' ih =>
    have hc : c ≠ ':' := h c (by simp)
    have hr := ih (fun x hx => h x (by simp [hx]))
    simp [breakColon, hc, hr]

theorem splitColonMax2_mk2 {u n : Str} (hu : colonFree u = true) (hn : colonFree n = true) :
    splitColonMax2 (mkEntry2 u n) = [u, n] := by
  simp [splitColonMax2, mkEntry2, breakColon_append n (colonFree_forall hu),
    breakColon_sepFree (colonFree_forall hn)]

theorem splitColonMax2_mk3 {u n : Str} {t : Nat} (hu : colonFree u = true)
    (hn : colonFree n = true) :
    splitColonMax2 (mkEntry3 u n t) = [u, n, [digitChar t]] := by
  simp [splitColonMax2, mkEntry3, breakColon_append _ (colonFree_forall hu),
    breakColon_append _ (colonFree_forall hn)]

theorem splitChar_mk2 {u n : Str} (hu : colonFree u = true) (hn : colonFree n = true) :
    splitChar ':' (mkEntry2 u n) = [u, n] := by
  rw [mkEntry2, splitChar_append _ (colonFree_forall hu),
    splitChar_sepFree (colonFree_forall hn)]

theorem splitChar_mk3 {u n : Str} {t : Nat} (hu : colonFree u = true) (hn : colonFree n = true)
    (ht : t < 10) : splitChar ':' (mkEntry3 u n t) = [u, n, [digitChar t]] := by
  have hd : ∀ c ∈ [digitChar t], c ≠ ':' := by
    interval_cases t <;> decide
  rw [mkEntry3, splitChar_append _ (colonFree_forall hu),
    splitChar_append _ (colonFree_forall hn), splitChar_sepFree hd]

theorem pyInt?_digitChar {t : Nat} (ht : t < 10) : pyInt? [digitChar t] = some t := by
  interval_cases t <;> decide

theorem delayEntry_mk3 {u n : Str} {t : Nat} (hu : colonFree u = true)
    (hn : colonFree n = true) (ht : t < 3) :
    delayEntry u (mkEntry3 u n t) = some (mkEntry3 u n ((t + 1) % 3)) := by
  have hsplit := splitChar_mk3 hu hn (show t < 10 by omega)
  have hint := pyInt?_digitChar (show t < 10 by omega)
  simp only [delayEntry]
  rw [hsplit]
  simp [hint, mkEntry3]

theorem delayEntry_mk2 {u n : Str} (hu : colonFree u = true) (hn : colonFree n = true) :
    delayEntry u (mkEntry2 u n) = some (mkEntry3 u n 1) := by
  have hsplit := splitChar_mk2 hu hn
  simp only [delayEntry]
  rw [hsplit]
  simp [mkEntry3]

theorem delayEntry_other {u p : Str} (h : firstField p ≠ u) : delayEntry u p = some p := by
  simp only [delayEntry]
  rw [if_neg (show (splitChar ':' p).headD [] ≠ u from h)]

theorem render_mk2 {u n : Str} (hu : colonFree u = true) (hn : colonFree n = true) :
    renderParticipant (mkEntry2 u n) = some n := by
  simp [renderParticipant, splitColonMax2_mk2 hu hn]

theorem render_mk3_zero {u n : Str} (hu : colonFree u = true) (hn : colonFree n = true) :
    renderParticipant (mkEntry3 u n 0) = some n := by
  have hsplit := splitColonMax2_mk3 hu hn (t := 0)
  simp [renderParticipant, hsplit]
  decide

theorem parseHM_lt {s : Str} {m : Nat} (h : parseHM s = some m) : m < 1440 := by
  unfold parseHM at h
  split at h
  · split at h
    · split at h
      · rename_i hb
        simp only [Option.some.injEq] at h
        simp only [Bool.and_eq_true, decide_eq_true_eq] at hb
        omega
      · exact absurd h (by simp)
    · exact absurd h (by simp)
  · exact absurd h (by simp)

theorem normSlot_le (today s e : Nat) (hs : s < 1440) :
    (normSlot today s e).1 ≤ (normSlot today s e).2 := by
  unfold normSlot
  dsimp only
  split
  · omega
  · omega

theorem parse_time_slot_le {raw : Str} {today st en : Nat}
    (h : parse_time_slot raw today = some (st, en)) : st ≤ en := by
  unfold parse_time_slot at h
  split at h
  · rename_i a b hsp
    cases hs : parseHM (pyStrip a) with
    | none =>
      rw [hs] at h
      exact absurd h (by simp)
    | some s =>
      cases he : parseHM (pyStrip b) with
      | none =>
        rw [hs, he] at h
        exact absurd h (by simp)
      | some e =>
        rw [hs, he] at h
        simp only [Option.some.injEq] at h
        have h1 := parseHM_lt hs
        have h2 := normSlot_le today s e h1
        rw [h] at h2
        exact h2
  · exact absurd h (by simp)

theorem reset_flags_all_true {entries : List RecEvent}
    (h : ∀ e ∈ entries, reconcileRaises e = false) :
    reset_reconcile_flags entries = entries.map (fun _ => true) := by
  induction entries with
  | nil => rfl
  | cons e rest ih =>
    have he : reconcileRaises e = false := h e (by simp)
    simp [reset_reconcile_flags, he, ih (fun x hx => h x (by simp [hx]))]

/-- C1: the join callback's read (`SELECT`, line 238) and write (`UPDATE`,
line 244) are separate awaited steps with no per-id serialization, so two
concurrent joins of distinct userIds 1 and 2 interleaved read-read-write-write
lose user 1's join entirely: the final persisted roster is `"2:b"` and does
not contain `"1"`, although the same two operations run back to back keep
both.  This refutes the claimed no-lost-updates serialization. -/
theorem mutate_roster_lost_update :
    runSchedule [⟨strL "1", strL "a"⟩, ⟨strL "2", strL "b"⟩]
        [.readRoster 0, .readRoster 1, .writeRoster 0, .writeRoster 1] = strL "2:b" ∧
    hasSubstr (strL "1")
        (runSchedule [⟨strL "1", strL "a"⟩, ⟨strL "2", strL "b"⟩]
          [.readRoster 0, .readRoster 1, .writeRoster 0, .writeRoster 1]) = false ∧
    runSchedule [⟨strL "1", strL "a"⟩, ⟨strL "2", strL "b"⟩]
        [.readRoster 0, .writeRoster 0, .readRoster 1, .writeRoster 1] = strL "1:a, 2:b" := by
  decide

/-- C2: `on_ready` registers interactive views and starts the daily reset
loop but never schedules an expiry timer for any persisted row, so expiries
pending at a crash are lost across restart; `schedule_event_end` itself, when
it is invoked (only from `add_server`), does fire immediately (sleep 0) for
an end time already in the past. -/
theorem on_ready_registers_no_expiry :
    (∀ records : List Row, (on_ready_actions records).all (fun a => !a.isExpiry) = true) ∧
    (∀ (ts : Str) (today now : Nat) (q : Nat × Nat),
        parse_time_slot ts today = some q → q.2 ≤ now →
        schedule_event_end_delay ts today now = some 0) := by
  constructor
  · intro records
    simp [on_ready_actions, List.all_append, List.all_map, StartupAction.isExpiry,
      Function.comp]
  · intro ts today now q h hle
    unfold schedule_event_end_delay
    rw [h]
    show some (q.2 - now) = some 0
    rw [Nat.sub_eq_zero_of_le hle]

theorem on_ready_registers_no_expiry_witness :
    schedule_event_end_delay (strL "10:00-11:00") 0 700 = some 0 :=
  on_ready_registers_no_expiry.2 (strL "10:00-11:00") 0 700 (600, 660) (by decide) (by decide)

/-- C3 counterexample: userId `"1"` is absent from the roster
`["12:Bob"]` (no entry's userId field equals it), yet join appends nothing,
because the membership test `user_id in p` (line 241) is a Python substring
test and `"1"` occurs inside `"12:Bob"`. -/
theorem join_substring_counterexample :
    List.all [strL "12:Bob"] (fun p => firstField p != strL "1") = true ∧
    joinCallback [strL "12:Bob"] (strL "1") (strL "Al") = [strL "12:Bob"] := by
  decide

/-- C3 amended: join is a no-op exactly when the userId occurs as a substring
of some serialized entry — in particular whenever an entry's exact userId
field equals it, so joining twice with one userId keeps a single entry — and
otherwise appends the two-field entry `"uid:name"`; join is idempotent. -/
theorem join_membership_amended :
    (∀ (r : List Str) (u n : Str), r.any (fun p => hasSubstr u p) = true →
        joinCallback r u n = r) ∧
    (∀ (r : List Str) (u n p : Str), p ∈ r → firstField p = u → joinCallback r u n = r) ∧
    (∀ (r : List Str) (u n : Str),
        joinCallback (joinCallback r u n) u n = joinCallback r u n) ∧
    (∀ u n : Str, (joinCallback (joinCallback [] u n) u n).length = 1) ∧
    (∀ (r : List Str) (u n : Str), r.any (fun p => hasSubstr u p) = false →
        joinCallback r u n = r ++ [mkEntry2 u n]) := by
  have h1 : ∀ (r : List Str) (u n : Str), r.any (fun p => hasSubstr u p) = true →
      joinCallback r u n = r := by
    intro r u n h
    simp [joinCallback, h]
  have h5 : ∀ (r : List Str) (u n : Str), r.any (fun p => hasSubstr u p) = false →
      joinCallback r u n = r ++ [mkEntry2 u n] := by
    intro r u n h
    simp [joinCallback, h]
  have h3 : ∀ (r : List Str) (u n : Str),
      joinCallback (joinCallback r u n) u n = joinCallback r u n := by
    intro r u n
    cases h : r.any (fun p => hasSubstr u p) with
    | true => rw [h1 r u n h, h1 r u n h]
    | false =>
      rw [h5 r u n h]
      apply h1
      simp [List.any_append, hasSubstr_mkEntry2_self]
  refine ⟨h1, ?_, h3, ?_, h5⟩
  · intro r u n p hp hf
    apply h1
    rw [List.any_eq_true]
    exact ⟨p, hp, hasSubstr_of_firstField hf⟩
  · intro u n
    have e1 : joinCallback [] u n = [mkEntry2 u n] := h5 [] u n (by simp)
    rw [e1, h1 _ u n (by simp [hasSubstr_mkEntry2_self])]
    rfl

theorem join_membership_witness :
    joinCallback [strL "5:Bob"] (strL "5") (strL "X") = [strL "5:Bob"] :=
  join_membership_amended.2.1 [strL "5:Bob"] (strL "5") (strL "X") (strL "5:Bob")
    (by decide) (by decide)

/-- C4 counterexample: leaving as user `"1"` removes not only the matching
entry `"1:Al"` but also `"12:Bob"`, whose userId field is `"12"`, because
removal keeps only entries not containing `user_id` as a substring
(line 334). -/
theorem leave_substring_counterexample :
    leaveCallback [strL "12:Bob", strL "1:Al"] (strL "1") = [] ∧
    leaveCallback [strL "12:Bob", strL "1:Al"] (strL "1") ≠ [strL "12:Bob"] ∧
    firstField (strL "12:Bob") ≠ strL "1" := by
  decide

/-- C4 amended: leave removes exactly the entries that contain the userId as
a substring, keeping the rest in their original order; it is idempotent, and
a no-op when no entry contains the userId as a substring. -/
theorem leave_amended :
    (∀ (r : List Str) (u : Str), leaveCallback (leaveCallback r u) u = leaveCallback r u) ∧
    (∀ (r : List Str) (u : Str), (∀ p ∈ r, hasSubstr u p = false) → leaveCallback r u = r) ∧
    (∀ (r : List Str) (u : Str), List.Sublist (leaveCallback r u) r) ∧
    (∀ (r : List Str) (u p : Str), p ∈ leaveCallback r u ↔ p ∈ r ∧ hasSubstr u p = false) := by
  refine ⟨?_, ?_, ?_, ?_⟩
  · intro r u
    simp [leaveCallback, List.filter_filter]
  · intro r u h
    apply List.filter_eq_self.mpr
    intro p hp
    simp [h p hp]
  · intro r u
    exact List.filter_sublist r
  · intro r u p
    simp [leaveCallback, List.mem_filter]

theorem leave_witness : leaveCallback [strL "2:Bo"] (strL "9") = [strL "2:Bo"] :=
  leave_amended.2.1 [strL "2:Bo"] (strL "9") (by decide)

/-- C5 counterexample: no entry of `["12:Bob"]` has userId `"1"`, yet the
delay callback reports success (`updated`, writing the roster back and
deferring) instead of the claimed `ok=false`, because the found-check at
line 281 is a substring test while the update loop at line 293 compares the
field exactly. -/
theorem cycle_delay_counterexample :
    delayCallback [strL "12:Bob"] (strL "1") = .updated [strL "12:Bob"] ∧
    DelayResult.updated [strL "12:Bob"] ≠ .notJoined ∧
    firstField (strL "12:Bob") ≠ strL "1" := by
  decide

/-- C5 amended: the not-joined refusal happens exactly when the userId is not
a substring of any entry; an entry whose userId field matches exactly has its
tier advanced by `(tier+1) mod 3` (a missing tier counts as 0), other entries
are mapped to themselves and order is preserved, and three consecutive delay
steps restore the original entry. -/
theorem cycle_delay_amended :
    (∀ (r : List Str) (u : Str), r.any (fun p => hasSubstr u p) = false →
        delayCallback r u = .notJoined) ∧
    (∀ (u n : Str) (t : Nat), colonFree u = true → colonFree n = true → t < 3 →
        delayEntry u (mkEntry3 u n t) = some (mkEntry3 u n ((t + 1) % 3))) ∧
    (∀ u n : Str, colonFree u = true → colonFree n = true →
        delayEntry u (mkEntry2 u n) = some (mkEntry3 u n 1)) ∧
    (∀ u p : Str, firstField p ≠ u → delayEntry u p = some p) ∧
    (∀ (u n : Str) (t : Nat), colonFree u = true → colonFree n = true → t < 3 →
        ((delayEntry u (mkEntry3 u n t)).bind (delayEntry u)).bind (delayEntry u) =
          some (mkEntry3 u n t)) ∧
    (∀ (r : List Str) (u : Str) (r' : List Str), delayCallback r u = .updated r' →
        r' = r.map (fun p => (delayEntry u p).getD p)) := by
  refine ⟨?_, ?_, ?_, ?_, ?_, ?_⟩
  · intro r u h
    simp [delayCallback, h]
  · intro u n t hu hn ht
    exact delayEntry_mk3 hu hn ht
  · intro u n hu hn
    exact delayEntry_mk2 hu hn
  · intro u p h
    exact delayEntry_other h
  · intro u n t hu hn ht
    rw [delayEntry_mk3 hu hn ht, Option.some_bind,
      delayEntry_mk3 hu hn (by omega), Option.some_bind,
      delayEntry_mk3 hu hn (by omega)]
    have hm3 : (((t + 1) % 3 + 1) % 3 + 1) % 3 = t := by omega
    rw [hm3]
  · intro r u r' h
    unfold delayCallback at h
    split at h
    · split at h
      · rename_i r2 hm
        injection h with h2
        rw [← h2]
        exact mapOpt_some (delayEntry u) r r2 hm
      · exact absurd h (by simp)
    · exact absurd h (by simp)

theorem cycle_delay_witness :
    delayCallback [strL "9:Zo"] (strL "4") = DelayResult.notJoined :=
  cycle_delay_amended.1 [strL "9:Zo"] (strL "4") (by decide)

/-- C6 counterexample: a single-entry roster whose display name contains the
separator `", "` does not round-trip — serialization then deserialization
splits it into two entries. -/
theorem roster_roundtrip_counterexample :
    get_participants_list (joinComma [strL "1:Al, Bob"]) = [strL "1:Al", strL "Bob"] ∧
    [strL "1:Al", strL "Bob"] ≠ [strL "1:Al, Bob"] := by
  decide

/-- C6 amended: `deserialize (serialize r) = r` holds for every roster whose
entries do not contain the separator `", "`, except the singleton
empty-string roster (whose serialization is empty and deserializes to `[]`);
tier-tolerance and malformed-entry skipping live in the renderer, not the
deserializer: an entry missing its tier field renders as its bare name (tier
0, no marker), an explicit tier 0 renders the same, and a malformed entry is
dropped from the rendered list without affecting its neighbours. -/
theorem roster_roundtrip_amended :
    (∀ r : List Str, (∀ p ∈ r, hasSubstr sepCS p = false) → r ≠ [[]] →
        get_participants_list (joinComma r) = r) ∧
    (∀ u n : Str, colonFree u = true → colonFree n = true →
        renderParticipant (mkEntry2 u n) = some n) ∧
    (∀ u n : Str, colonFree u = true → colonFree n = true →
        renderParticipant (mkEntry3 u n 0) = some n) ∧
    (∀ (l1 l2 : List Str) (p : Str), renderParticipant p = none →
        renderRoster (l1 ++ p :: l2) = renderRoster (l1 ++ l2)) := by
  refine ⟨?_, ?_, ?_, ?_⟩
  · intro r hall hne
    exact roundtrip_gpl r hall hne
  · intro u n hu hn
    exact render_mk2 hu hn
  · intro u n hu hn
    exact render_mk3_zero hu hn
  · intro l1 l2 p h
    simp [renderRoster, List.filterMap_append, List.filterMap_cons, h]

theorem roster_roundtrip_witness :
    get_participants_list (joinComma [strL "1:a", strL "2:b:1"]) =
      [strL "1:a", strL "2:b:1"] :=
  roster_roundtrip_amended.1 [strL "1:a", strL "2:b:1"] (by decide) (by decide)

/-- C7 counterexample: the two halves of `"10:00-10:00"` are valid and equal;
normalization only advances the end when `end < start` (line 60), so the
parse yields `end = start`, not `end > start`. -/
theorem time_slot_counterexample :
    parse_time_slot (strL "10:00-10:00") 0 = some (600, 600) ∧ ¬ (600 : Nat) < 600 := by
  exact ⟨by decide, by omega⟩

/-- C7 amended: every successful parse satisfies `start ≤ end`; equality
occurs exactly when the two times-of-day coincide, `end > start` whenever
they differ, and an end time-of-day earlier than the start's is advanced by
one calendar day (the overnight wrap). -/
theorem time_slot_amended :
    (∀ (raw : Str) (today st en : Nat),
        parse_time_slot raw today = some (st, en) → st ≤ en) ∧
    (∀ today s e : Nat, s < 1440 → e < 1440 →
        ((s = e → (normSlot today s e).1 = (normSlot today s e).2) ∧
         (s ≠ e → (normSlot today s e).1 < (normSlot today s e).2) ∧
         (e < s → (normSlot today s e).2 = today * 1440 + e + 1440))) := by
  constructor
  · intro raw today st en h
    exact parse_time_slot_le h
  · intro today s e hs he
    unfold normSlot
    dsimp only
    refine ⟨?_, ?_, ?_⟩ <;> intro h1 <;> split <;> omega

theorem time_slot_witness : (normSlot 0 1410 30).2 = 0 * 1440 + 30 + 1440 :=
  (time_slot_amended.2 0 1410 30 (by omega) (by omega)).2.2 (by omega)

/-- C8: when the entry was deleted before its expiry timer fired, the fire
leaves the store untouched (both `UPDATE`s match zero rows) but it is not a
no-op towards the channel: `update_schedule_message` finds no stored message
id and sends a brand-new external message (line 199) for the dead entry. -/
theorem expiry_fire_after_delete :
    schedule_event_end_fire [⟨2, strL "1:a", some 7⟩] 1 true true 99 =
      ⟨[⟨2, strL "1:a", some 7⟩], [99], []⟩ ∧
    ([99] : List Nat) ≠ [] := by
  decide

/-- C9 counterexample: the whole reconciliation loop of the daily reset sits
in one `try` (lines 561–581), so when the first entry's reconciliation
raises (here: the stored message is gone and the replacement send also
fails), the second, perfectly healthy entry is never reconciled in that
fire. -/
theorem reset_isolation_counterexample :
    schedule_reset_task_m [.editTargetMissingResendFails, .allOk] = ([true, false], true) := by
  decide

/-- C9 amended: the recurring reset task itself always survives a fire (the
outer handler only logs), and Presenter failures handled inside
`update_schedule_message` — a missing artifact with a successful resend, or a
permission refusal — are isolated so that every entry still gets reconciled;
but an error escaping `update_schedule_message` skips all remaining entries
of that fire. -/
theorem reset_isolation_amended :
    (∀ entries : List RecEvent, (schedule_reset_task_m entries).2 = true) ∧
    (∀ entries : List RecEvent, (∀ e ∈ entries, reconcileRaises e = false) →
        (schedule_reset_task_m entries).1 = entries.map (fun _ => true)) := by
  constructor
  · intro entries
    rfl
  · intro entries h
    exact reset_flags_all_true h

theorem reset_isolation_witness :
    (schedule_reset_task_m [.editTargetMissingResendOk, .sendNotAllowed, .allOk]).1 =
      [true, true, true] :=
  reset_isolation_amended.2 [.editTargetMissingResendOk, .sendNotAllowed, .allOk] (by decide)

/-- C10 counterexample: joining with the display name `"a:b"` appends
`"1:a:b"`, which has three colon-separated fields, not two. -/
theorem join_two_fields_counterexample :
    joinCallback [] (strL "1") (strL "a:b") = [strL "1:a:b"] ∧
    (splitChar ':' (strL "1:a:b")).length = 3 := by
  decide

/-- C10 amended: when the userId is not a substring of any existing entry and
both the userId and the display name are colon-free, join appends exactly the
two-field entry `"uid:name"`; that entry splits into the two fields, renders
with no lateness marker, and gains its third (tier) field only through a
later delay cycle. -/
theorem join_two_fields_amended :
    ∀ (r : List Str) (u n : Str), r.any (fun p => hasSubstr u p) = false →
      colonFree u = true → colonFree n = true →
      joinCallback r u n = r ++ [mkEntry2 u n] ∧
      splitChar ':' (mkEntry2 u n) = [u, n] ∧
      renderParticipant (mkEntry2 u n) = some n ∧
      delayEntry u (mkEntry2 u n) = some (mkEntry3 u n 1) := by
  intro r u n h hu hn
  refine ⟨by simp [joinCallback, h], splitChar_mk2 hu hn, render_mk2 hu hn,
    delayEntry_mk2 hu hn⟩

theorem join_two_fields_witness :
    joinCallback [] (strL "7") (strL "Zed") = [mkEntry2 (strL "7") (strL "Zed")] :=
  (join_two_fields_amended [] (strL "7") (strL "Zed") (by decide) (by decide) (by decide)).1

end Up
